import Mathlib

/-!
# Trinetra job runner: outcome classification, firing pipeline, schedule translation

A shallow embedding of `main.go`: the functions `executeBashScript`,
`evaluateDecisionLogic`, `updateMetrics`, `runJob` and `scheduleJob`, with the
external collaborators (process runner, JSON codec, JSON-logic evaluator,
Prometheus counter vector, cron engine) made explicit.

Go `int` is 64 bit; values are carried as `Int`, and the one place where the
width matters (the range check of `strconv.ParseInt`) is explicit.
Go strings that hold text the program scans or prints are carried as `String`,
scanned rune by rune. The job name, which reaches the metrics library unchecked,
is carried as its bytes, since a Go string need not be valid UTF-8.
-/

namespace Trinetra

/-! ## Go strings as bytes -/

/-- A Go string as its sequence of bytes, each below 256; any byte sequence is
a Go string. An entry of 256 or more is no byte and makes `ValidString` false. -/
abbrev GoString := List Nat

/-- The scan of `utf8.ValidString`, with `need` continuation bytes still owed
and the next one accepted in `[lo, hi]`: the lead-byte table of package
`unicode/utf8` (no overlong forms, no surrogates, nothing above U+10FFFF). -/
def validFrom : Nat → Nat → Nat → List Nat → Bool
  | 0, _, _, [] => true
  | _ + 1, _, _, [] => false
  | 0, _, _, b :: rest =>
    if b < 0x80 then validFrom 0 0x80 0xBF rest
    else if 0xC2 ≤ b ∧ b ≤ 0xDF then validFrom 1 0x80 0xBF rest
    else if b = 0xE0 then validFrom 2 0xA0 0xBF rest
    else if (0xE1 ≤ b ∧ b ≤ 0xEC) ∨ b = 0xEE ∨ b = 0xEF then validFrom 2 0x80 0xBF rest
    else if b = 0xED then validFrom 2 0x80 0x9F rest
    else if b = 0xF0 then validFrom 3 0x90 0xBF rest
    else if 0xF1 ≤ b ∧ b ≤ 0xF3 then validFrom 3 0x80 0xBF rest
    else if b = 0xF4 then validFrom 3 0x80 0x8F rest
    else false
  | need + 1, lo, hi, b :: rest =>
    if lo ≤ b ∧ b ≤ hi then validFrom need 0x80 0xBF rest else false

/-- The function `utf8.ValidString`. -/
def ValidString (s : GoString) : Bool :=
  validFrom 0 0x80 0xBF s

/-! ## Configuration records -/

/-- A decoded YAML / JSON value held in a Go `interface{}`; `nil` is the nil interface. -/
inductive Value where
  | nil
  | bool (b : Bool)
  | num (n : Int)
  | str (s : String)
  | arr (xs : List Value)
  | obj (kvs : List (String × Value))

/-- The record `ScheduleData`. -/
structure ScheduleData where
  DaysOfWeek : List Int
  IntervalInSeconds : Int
  AtUTC : List String

/-- The record `ScheduleConfig`; the field `Type` of the source is `Typ` here. -/
structure ScheduleConfig where
  Typ : String
  Data : ScheduleData

/-- The record `ActionConfig`. -/
structure ActionConfig where
  Plugin : String
  Script : String

/-- The record `Job`. -/
structure Job where
  Name : GoString
  Description : String
  Schedule : ScheduleConfig
  Action : ActionConfig
  DecisionLogic : Value

/-! ## Integer formatting -/

/-- The verb `%d` of `fmt.Sprintf` on a Go `int`: a minus sign for a negative
value, then the decimal digits of the magnitude. -/
def sprintD (n : Int) : String :=
  if n < 0 then "-" ++ Nat.repr n.natAbs else Nat.repr n.natAbs

/-! ## The metrics sink -/

/-- One label tuple of the counter vector `job_status_total`. -/
structure Labels where
  job_name : GoString
  status : String
  exit_code : String
deriving DecidableEq, Repr

/-- The counter vector `jobStatusMetric`: the value of every labelled counter. -/
abbrev Metrics := Labels → Nat

/-- The value `WithLabelValues` panics with: a label value that is not valid
UTF-8. -/
inductive MetricPanic where
  | invalidLabelValue (value : GoString)
deriving DecidableEq, Repr

/-- The call `jobStatusMetric.WithLabelValues(a, b, c).Inc()`. The library
validates the label values and panics when one is not valid UTF-8; otherwise
the counter of that label tuple goes up by one. The status `b` and the exit
code `c` are text the program itself produces (a literal and the output of
`%d`), carried as `String`; the job name `a` comes from the configuration. -/
def WithLabelValuesInc (m : Metrics) (a : GoString) (b c : String) :
    Except MetricPanic Metrics :=
  if ValidString a then .ok (fun k => if k = ⟨a, b, c⟩ then m k + 1 else m k)
  else .error (.invalidLabelValue a)

/-- The function `updateMetrics`: a three-way switch, first matching case wins.
A panic of the metrics call is the error result. The decision label is only
compared with "BAD" and never handed to the metrics library. -/
def updateMetrics (m : Metrics) (jobName : GoString) (decision : String) (exitCode : Int) :
    Except MetricPanic Metrics :=
  if decision = "BAD" then
    WithLabelValuesInc m jobName "BAD" (sprintD exitCode)
  else if exitCode ≠ 0 then
    WithLabelValuesInc m jobName "ERROR" (sprintD exitCode)
  else
    WithLabelValuesInc m jobName "OK" (sprintD exitCode)

/-- The outcome classes of the specification. -/
inductive Outcome where
  | OK
  | BAD
  | ERROR
deriving DecidableEq, Repr

/-- The label value under which an outcome class is counted. -/
def Outcome.label : Outcome → String
  | .OK => "OK"
  | .BAD => "BAD"
  | .ERROR => "ERROR"

/-- The classification policy as the specification words it (section 4.4):
label `BAD` first, then a non-zero exit code, else `OK`. -/
def classify (decisionLabel : String) (exitCode : Int) : Outcome :=
  if decisionLabel = "BAD" then .BAD
  else if exitCode ≠ 0 then .ERROR
  else .OK

/-! ## The action executor -/

/-- How a started process ended, as `os.ProcessState` records it. -/
inductive ProcessState where
  | exited (status : Nat)
  | signaled (signal : Nat)
deriving DecidableEq, Repr

/-- The method `ProcessState.ExitCode`: the exit status of an exited process,
`-1` for one terminated by a signal. -/
def ProcessState.ExitCode : ProcessState → Int
  | .exited status => (status : Int)
  | .signaled _ => -1

/-- A non-nil error of `cmd.Run`: an `*exec.ExitError` carrying the process
state, or any other error (the shell could not be started, an I/O failure). -/
inductive RunError where
  | exitError (state : ProcessState)
  | other (msg : String)
deriving DecidableEq, Repr

/-- What one call of `cmd.Run` leaves behind: its error and the two buffers. -/
structure CmdResult where
  err : Option RunError
  stdout : String
  stderr : String
deriving DecidableEq, Repr

/-- How a launch of `bash -c script` ended, seen from the operating system. -/
inductive ProcessEnd where
  | ended (state : ProcessState)
  | launchFailed (msg : String)
deriving DecidableEq, Repr

/-- The error `cmd.Run` reports for each way a launch can end, as package
`os/exec` documents it: nil when the command ran and exited with status zero,
an `*exec.ExitError` when it started but did not complete successfully, another
error type otherwise. -/
def cmdRunError : ProcessEnd → Option RunError
  | .ended (.exited 0) => none
  | .ended state => some (.exitError state)
  | .launchFailed msg => some (.other msg)

/-- The errors `evaluateDecisionLogic` builds with `fmt.Errorf`. -/
inductive EvalError where
  | marshalLogic (cause : String)
  | marshalData (cause : String)
  | evaluate (cause : String)
  | unmarshalResult (cause : String)
  | notAString (got : Value)

/-- The lines written with `log.Printf`, by call site. -/
inductive LogEvent where
  | scriptStdout (out : String)
  | scriptStderr (out : String)
  | running (job : GoString)
  | execError (job : GoString) (err : RunError)
  | scriptFinished (job : GoString) (exitCode : Int)
  | evaluating (job : GoString) (data : Value)
  | evalError (job : GoString) (err : EvalError)
  | decisionReturned (job : GoString) (decision : String)
  | metricsUpdated (job : GoString) (decision : String) (exitCode : Int)

/-- The two conditional log lines that follow `cmd.Run` on either branch. -/
def logOutput (r : CmdResult) : List LogEvent :=
  (if r.stdout.length > 0 then [LogEvent.scriptStdout r.stdout] else []) ++
  (if r.stderr.length > 0 then [LogEvent.scriptStderr r.stderr] else [])

/-- The function `executeBashScript`, over the process runner `run` that stands
for `exec.Command("bash", "-c", script)` followed by `cmd.Run()`.
Returns the pair of the source and the log lines written. -/
def executeBashScript (run : String → CmdResult) (script : String) :
    (Int × Option RunError) × List LogEvent :=
  let r := run script
  match r.err with
  | some err =>
    match err with
    | .exitError state => ((state.ExitCode, none), logOutput r)
    | .other msg => ((-1, some (.other msg)), logOutput r)
  | none => ((0, none), logOutput r)

/-! ## The decision evaluator -/

/-- Serialised JSON text. -/
abbrev Bytes := String

/-- The external calls `evaluateDecisionLogic` can make. -/
inductive ExtCall where
  | jsonMarshal (v : Value)
  | jsonlogicApply (logic : Bytes) (data : Bytes)
  | jsonUnmarshal (b : Bytes)

/-- The JSON codec and the JSON-logic evaluator the program links against. -/
structure JsonEnv where
  Marshal : Value → Except String Bytes
  Apply : Bytes → Bytes → Except String Bytes
  Unmarshal : Bytes → Except String Value

/-- The function `evaluateDecisionLogic`. Returns the result of the source
together with the external calls made, in order. -/
def evaluateDecisionLogic (env : JsonEnv) (logic : Value) (data : Value) :
    Except EvalError String × List ExtCall :=
  match logic with
  | .nil => (.ok "OK", [])
  | _ =>
    match env.Marshal logic with
    | .error e => (.error (.marshalLogic e), [.jsonMarshal logic])
    | .ok logicBytes =>
      match env.Marshal data with
      | .error e => (.error (.marshalData e), [.jsonMarshal logic, .jsonMarshal data])
      | .ok dataBytes =>
        match env.Apply logicBytes dataBytes with
        | .error e =>
          (.error (.evaluate e),
            [.jsonMarshal logic, .jsonMarshal data, .jsonlogicApply logicBytes dataBytes])
        | .ok output =>
          match env.Unmarshal output with
          | .error e =>
            (.error (.unmarshalResult e),
              [.jsonMarshal logic, .jsonMarshal data, .jsonlogicApply logicBytes dataBytes,
                .jsonUnmarshal output])
          | .ok result =>
            match result with
            | .str decision =>
              (.ok decision,
                [.jsonMarshal logic, .jsonMarshal data, .jsonlogicApply logicBytes dataBytes,
                  .jsonUnmarshal output])
            | _ =>
              (.error (.notAString result),
                [.jsonMarshal logic, .jsonMarshal data, .jsonlogicApply logicBytes dataBytes,
                  .jsonUnmarshal output])

/-! ## One firing -/

/-- The observable state a firing acts on: the counters, the log written so
far and the external JSON calls made so far. -/
structure World where
  metrics : Metrics
  log : List LogEvent
  calls : List ExtCall

/-- The data context `runJob` builds from the exit code. -/
def resultData (exitCode : Int) : Value :=
  .obj [("bash_check_result", .obj [("exit_code", .num exitCode)])]

/-- The function `runJob`. A panic of a metrics call ends the firing: it is the
error result, and no world is returned. -/
def runJob (env : JsonEnv) (run : String → CmdResult) (job : Job) (w : World) :
    Except MetricPanic World :=
  let log1 := w.log ++ [LogEvent.running job.Name]
  match executeBashScript run job.Action.Script with
  | ((exitCode, some err), out) =>
    match WithLabelValuesInc w.metrics job.Name "ERROR" (sprintD exitCode) with
    | .error p => .error p
    | .ok metrics =>
      .ok { metrics := metrics
            log := log1 ++ out ++ [LogEvent.execError job.Name err]
            calls := w.calls }
  | ((exitCode, none), out) =>
    let log2 := log1 ++ out ++ [LogEvent.scriptFinished job.Name exitCode]
    let data := resultData exitCode
    let log3 := log2 ++ [LogEvent.evaluating job.Name data]
    match evaluateDecisionLogic env job.DecisionLogic data with
    | (.error err, cs) =>
      match WithLabelValuesInc w.metrics job.Name "ERROR" (sprintD exitCode) with
      | .error p => .error p
      | .ok metrics =>
        .ok { metrics := metrics
              log := log3 ++ [LogEvent.evalError job.Name err]
              calls := w.calls ++ cs }
    | (.ok decision, cs) =>
      match updateMetrics w.metrics job.Name decision exitCode with
      | .error p => .error p
      | .ok metrics =>
        .ok { metrics := metrics
              log := log3 ++ [LogEvent.decisionReturned job.Name decision,
                              LogEvent.metricsUpdated job.Name decision exitCode]
              calls := w.calls ++ cs }

/-! ## Scanning a time of day: `fmt.Sscanf(timeStr, "%d:%d", &hour, &min)`

The scanner of package `fmt`, specialised to the one format string the program
uses. The input is a list of runes; every function takes the unread input and
returns what is left of it. -/

/-- The ways the scan can fail. `outOfInput` stands for both `io.EOF` and
`io.ErrUnexpectedEOF`. -/
inductive ScanError where
  | outOfInput
  | unexpectedNewline
  | expectedInteger
  | inputDoesNotMatchFormat
  | invalidSyntax
  | valueOutOfRange
deriving DecidableEq, Repr

/-- The constant `hugeWid`: the scanner reports end of input once this many
runes have been consumed. -/
def hugeWid : Nat := 1073741824

/-- The range table `space` of package `fmt`. -/
def space : List (Nat × Nat) :=
  [(0x0009, 0x000d), (0x0020, 0x0020), (0x0085, 0x0085), (0x00a0, 0x00a0),
   (0x1680, 0x1680), (0x2000, 0x200a), (0x2028, 0x2029), (0x202f, 0x202f),
   (0x205f, 0x205f), (0x3000, 0x3000)]

/-- The loop of `isSpace` over the range table. -/
def isSpaceIn : List (Nat × Nat) → Nat → Bool
  | [], _ => false
  | (lo, hi) :: rest, rx =>
    if rx < lo then false else if rx ≤ hi then true else isSpaceIn rest rx

/-- The function `isSpace` of package `fmt`. -/
def isSpace (r : Char) : Bool :=
  if r.toNat ≥ 65536 then false else isSpaceIn space r.toNat

/-- The method `SkipSpace` with `nlIsSpace` false, as `Sscanf` sets it: a
carriage return before a newline is dropped, a newline is an error, other
spaces are skipped, the first other rune is left unread. -/
def SkipSpace : List Char → Except ScanError (List Char)
  | [] => .ok []
  | r :: rest =>
    if r = '\r' ∧ rest.head? = some '\n' then SkipSpace rest
    else if r = '\n' then .error .unexpectedNewline
    else if isSpace r then SkipSpace rest
    else .ok (r :: rest)

/-- Membership in the constant `decimalDigits`. -/
def isDecimalDigit (c : Char) : Bool :=
  "0123456789".data.contains c

/-- The call `s.accept(sign)`: the token buffer and the unread input after it. -/
def acceptSign : List Char → List Char × List Char
  | [] => ([], [])
  | c :: rest => if c = '+' ∨ c = '-' then ([c], rest) else ([], c :: rest)

/-- The method `scanNumber` for decimal digits: at least one digit is required,
then digits are taken while they last. Returns the token and the unread input. -/
def scanNumber (buf : List Char) (input : List Char) :
    Except ScanError (List Char × List Char) :=
  match input with
  | [] => .error .outOfInput
  | c :: _ =>
    if isDecimalDigit c then
      .ok (buf ++ input.takeWhile isDecimalDigit, input.dropWhile isDecimalDigit)
    else .error .expectedInteger

/-- The value of one decimal digit. -/
def digitValue (c : Char) : Nat := c.toNat - 48

/-- The value of a run of decimal digits, most significant first. -/
def decimalValue (ds : List Char) : Nat :=
  ds.foldl (fun acc c => acc * 10 + digitValue c) 0

/-- The magnitude part of `strconv.ParseInt`: a non-empty run of digits. -/
def parseMagnitude (ds : List Char) : Except ScanError Nat :=
  if ds = [] ∨ ¬ ds.all isDecimalDigit then .error .invalidSyntax
  else .ok (decimalValue ds)

/-- The call `strconv.ParseInt(tok, 10, 64)`: an optional sign, digits, and the
range check against the cutoff `1 << 63`. -/
def ParseInt (tok : List Char) : Except ScanError Int :=
  match tok with
  | [] => .error .invalidSyntax
  | c :: ds =>
    if c = '-' then
      match parseMagnitude ds with
      | .error e => .error e
      | .ok un => if un > 9223372036854775808 then .error .valueOutOfRange else .ok (-(un : Int))
    else
      match parseMagnitude (if c = '+' then ds else c :: ds) with
      | .error e => .error e
      | .ok un => if un ≥ 9223372036854775808 then .error .valueOutOfRange else .ok (un : Int)

/-- The method `scanInt` for the verb `%d` into an `*int`. -/
def scanInt (input : List Char) : Except ScanError (Int × List Char) :=
  match SkipSpace input with
  | .error e => .error e
  | .ok [] => .error .outOfInput
  | .ok (c :: cs) =>
    match scanNumber (acceptSign (c :: cs)).1 (acceptSign (c :: cs)).2 with
    | .error e => .error e
    | .ok (tok, rest) =>
      match ParseInt tok with
      | .error e => .error e
      | .ok i => .ok (i, rest)

/-- The method `advance` on the literal `:` of the format. -/
def advanceColon : List Char → Except ScanError (List Char)
  | [] => .error .outOfInput
  | c :: rest => if c = ':' then .ok rest else .error .inputDoesNotMatchFormat

/-- One verb `%d` inside `doScanf`: spaces are skipped, then the operand is scanned. -/
def scanVerbD (input : List Char) : Except ScanError (Int × List Char) :=
  match SkipSpace input with
  | .error e => .error e
  | .ok input1 => scanInt input1

/-- The call `fmt.Sscanf(str, "%d:%d", &hour, &min)`: the pair `(hour, min)` on
success. Input left over after the second number is not an error. -/
def Sscanf (str : String) : Except ScanError (Int × Int) :=
  match scanVerbD (str.data.take hugeWid) with
  | .error e => .error e
  | .ok (hour, input1) =>
    match advanceColon input1 with
    | .error e => .error e
    | .ok input2 =>
      match scanVerbD input2 with
      | .error e => .error e
      | .ok (min, _) => .ok (hour, min)

/-! ## The schedule translator -/

/-- The errors `scheduleJob` builds with `fmt.Errorf`. -/
inductive ScheduleError where
  | invalidInterval (interval : Int)
  | emptyAtUTC
  | invalidTimeFormat (timeStr : String) (cause : ScanError)
  | unsupportedType (typ : String)
deriving DecidableEq, Repr

/-- The text of a `ScheduleError`, given the text of the scan failures. -/
def ScheduleError.Error (causeText : ScanError → String) : ScheduleError → String
  | .invalidInterval interval => "invalid interval: " ++ sprintD interval
  | .emptyAtUTC => "atUTC must not be empty for strict schedule"
  | .invalidTimeFormat timeStr cause =>
    "invalid time format " ++ timeStr ++ ": " ++ causeText cause
  | .unsupportedType typ => "unsupported schedule type: " ++ typ

/-- The call `fmt.Sprintf("%d %d * * *", min, hour)`. -/
def strictSpec (min hour : Int) : String :=
  sprintD min ++ " " ++ sprintD hour ++ " * * *"

/-- The loop of the `strict` case over `AtUTC`, with the slice `schedules`
built so far. -/
def strictLoop : List String → List String → Except ScheduleError (List String)
  | [], schedules => .ok schedules
  | timeStr :: rest, schedules =>
    match Sscanf timeStr with
    | .error err => .error (.invalidTimeFormat timeStr err)
    | .ok (hour, min) => strictLoop rest (schedules ++ [strictSpec min hour])

/-- The function `scheduleJob`. -/
def scheduleJob (job : Job) : Except ScheduleError (List String) :=
  if job.Schedule.Typ = "frequency" then
    if job.Schedule.Data.IntervalInSeconds ≤ 0 then
      .error (.invalidInterval job.Schedule.Data.IntervalInSeconds)
    else .ok ["@every " ++ sprintD job.Schedule.Data.IntervalInSeconds ++ "s"]
  else if job.Schedule.Typ = "strict" then
    if job.Schedule.Data.AtUTC.length = 0 then .error .emptyAtUTC
    else strictLoop job.Schedule.Data.AtUTC []
  else .error (.unsupportedType job.Schedule.Typ)


/-! ## The literal time-of-day pattern of the specification -/

/-- The reading of an entry under the literal pattern `H:MM` / `HH:MM`: one or
two decimal digits, a colon, two decimal digits and nothing else. Returns the
hour and the minute the digits denote, without any range check. -/
def readHMM (s : String) : Option (Nat × Nat) :=
  match s.data with
  | [h, c, m1, m2] =>
    if isDecimalDigit h ∧ c = ':' ∧ isDecimalDigit m1 ∧ isDecimalDigit m2 then
      some (digitValue h, 10 * digitValue m1 + digitValue m2)
    else none
  | [h1, h2, c, m1, m2] =>
    if isDecimalDigit h1 ∧ isDecimalDigit h2 ∧ c = ':' ∧ isDecimalDigit m1 ∧ isDecimalDigit m2 then
      some (10 * digitValue h1 + digitValue h2, 10 * digitValue m1 + digitValue m2)
    else none
  | _ => none

/-- An entry matches the literal pattern `H:MM` / `HH:MM`. -/
def matchesHMM (s : String) : Bool :=
  (readHMM s).isSome

/-- An entry is a valid time of day: it matches the pattern, the hour is at
most 23 and the minute at most 59. -/
def validHMM (s : String) : Bool :=
  match readHMM s with
  | some (hour, minute) => decide (hour ≤ 23) && decide (minute ≤ 59)
  | none => false

/-- The TriggerSpec the specification expects for an entry: minute, hour and
three stars, the two numbers in decimal. -/
def expectedSpec (s : String) : String :=
  match readHMM s with
  | some (hour, minute) => Nat.repr minute ++ " " ++ Nat.repr hour ++ " * * *"
  | none => ""

/-! ## What the scan accepts, stated on the shape of the entry -/

/-- A rune the scan passes over before a number: a space other than the newline. -/
def isBlank (c : Char) : Bool :=
  isSpace c && !(c == '\n')

/-- The integer a sign (none, `+` or `-`) and a run of digits denote. -/
def signedValue (sg ds : List Char) : Int :=
  if sg = ['-'] then -((decimalValue ds : Nat) : Int) else ((decimalValue ds : Nat) : Int)

/-- One operand as written in the entry: blanks `ws`, a sign `sg` that is empty,
`+` or `-`, a non-empty run of decimal digits `ds`, denoting the value `v`, which
fits a signed 64-bit integer. -/
def IntShape (ws sg ds : List Char) (v : Int) : Prop :=
  (∀ c ∈ ws, isBlank c = true)
  ∧ (sg = [] ∨ sg = ['+'] ∨ sg = ['-'])
  ∧ ds ≠ []
  ∧ (∀ c ∈ ds, isDecimalDigit c = true)
  ∧ v = signedValue sg ds
  ∧ -9223372036854775808 ≤ v ∧ v < 9223372036854775808

/-- The shape of an entry read as `(hour, min)`: an operand, a colon right after
its last digit, a second operand, and any text that does not start with a digit. -/
def ScanShape (input : List Char) (hour min : Int) : Prop :=
  ∃ ws1 sg1 ds1 ws2 sg2 ds2 tail : List Char,
    input = ws1 ++ (sg1 ++ (ds1 ++ ':' :: (ws2 ++ (sg2 ++ (ds2 ++ tail)))))
    ∧ IntShape ws1 sg1 ds1 hour
    ∧ IntShape ws2 sg2 ds2 min
    ∧ tail.takeWhile isDecimalDigit = []

/-- An entry has the shape the scan accepts, within the first `hugeWid` runes. -/
def Scannable (s : String) : Prop :=
  ∃ hour min : Int, ScanShape (s.data.take hugeWid) hour min

/-! ## The trigger engine -/

/-- The loop of `strings.Fields`: the maximal runs of non-space runes, with the
run being collected in `cur`. White space is that of `unicode.IsSpace`, the set
the table `space` lists. -/
def fieldsFrom : List Char → List Char → List (List Char)
  | [], cur => if cur = [] then [] else [cur]
  | c :: cs, cur =>
    if isSpace c then
      (if cur = [] then fieldsFrom cs [] else cur :: fieldsFrom cs [])
    else fieldsFrom cs (cur ++ [c])

/-- Modelled from the spec: the duration reader the trigger engine applies to
the text after `@every `, absent from the source file, on the one form the
program produces: a run of decimal digits followed by `s`. Such a duration is
accepted when the seconds, counted in nanoseconds, fit 63 bits, that is up to
9223372036 seconds, and refused above. For any other text this model gives no
verdict (`none`). -/
def everySeconds (d : List Char) : Option Bool :=
  if d.takeWhile isDecimalDigit ≠ [] ∧ d.dropWhile isDecimalDigit = ['s'] then
    some (decide (decimalValue (d.takeWhile isDecimalDigit) ≤ 9223372036))
  else none

/-- Modelled from the spec: the trigger engine is the external cron library,
absent from the source file. This is what its reader decides on the shape of a
spec alone, as `main` configures it with `cron.New(cron.WithSeconds())`, in the
order the reader checks: an empty spec is refused; a spec with a time-zone
clause gets no verdict here; a spec starting with `@every ` goes to the duration
reader; any other spec starting with `@` gets no verdict here; any other spec
is split at white space and refused unless it has exactly six fields (second,
minute, hour, day of month, month, day of week), and with six fields the verdict
depends on their contents, which this model does not read. `some true` is
accepted, `some false` refused, `none` no verdict. -/
def engineAccepts (spec : String) : Option Bool :=
  if spec.data = [] then some false
  else if "TZ=".data.isPrefixOf spec.data ∨ "CRON_TZ=".data.isPrefixOf spec.data then none
  else if "@every ".data.isPrefixOf spec.data then everySeconds (spec.data.drop 7)
  else if "@".data.isPrefixOf spec.data then none
  else if (fieldsFrom spec.data []).length = 6 then none
  else some false

/-! ## Concrete inputs -/

/-- The bytes of the job name "probe". -/
def probeName : GoString := [112, 114, 111, 98, 101]

/-- The one-byte job name `"\xff"`, which is not valid UTF-8; the YAML tag
`!!binary` with the payload `/w==` decodes to it. -/
def binaryName : GoString := [255]

/-- A job with the given schedule and decision rule, named `probe`. -/
def probeJob (typ : String) (interval : Int) (atUTC : List String) (logic : Value) : Job :=
  { Name := probeName
    Description := ""
    Schedule := { Typ := typ, Data := { DaysOfWeek := [], IntervalInSeconds := interval, AtUTC := atUTC } }
    Action := { Plugin := "bash", Script := "exit 0" }
    DecisionLogic := logic }

/-- The job `probeJob "frequency" 30 []` under the name `"\xff"`. -/
def binaryJob (logic : Value) : Job :=
  { probeJob "frequency" 30 [] logic with Name := binaryName }

/-- The world before any firing: all counters zero, nothing logged. -/
def freshWorld : World :=
  { metrics := fun _ => 0, log := [], calls := [] }

/-- A process runner under which every launch ends the same way, silently. -/
def runEnding (pe : ProcessEnd) : String → CmdResult :=
  fun _ => { err := cmdRunError pe, stdout := "", stderr := "" }

/-- A JSON environment whose evaluator answers every rule with the same value. -/
def constEnv (answer : Value) : JsonEnv :=
  { Marshal := fun _ => .ok "", Apply := fun _ _ => .ok "", Unmarshal := fun _ => .ok answer }

/-- A JSON environment whose evaluator rejects every rule. -/
def failingEnv : JsonEnv :=
  { Marshal := fun _ => .ok "", Apply := fun _ _ => .error "bad rule", Unmarshal := fun _ => .ok .nil }

/-- The rule of scenario C, as decoded from YAML. -/
def scenarioRule : Value :=
  .obj [("==", .arr [.obj [("var", .str "bash_check_result.exit_code")], .num 0])]

/-! ## Outcome classification and the metrics sink -/

theorem WithLabelValuesInc_valid (m : Metrics) (a : GoString) (b c : String)
    (h : ValidString a = true) :
    WithLabelValuesInc m a b c = .ok (fun k => if k = ⟨a, b, c⟩ then m k + 1 else m k) := by
  unfold WithLabelValuesInc
  rw [if_pos h]

theorem bumped_apply (m : Metrics) (key k : Labels) :
    (fun k => if k = key then m k + 1 else m k) k = m k + (if k = key then 1 else 0) := by
  show (if k = key then m k + 1 else m k) = m k + (if k = key then 1 else 0)
  split <;> simp

theorem updateMetrics_eq_classify (m : Metrics) (jobName : GoString) (decision : String)
    (exitCode : Int) :
    updateMetrics m jobName decision exitCode
      = WithLabelValuesInc m jobName (classify decision exitCode).label (sprintD exitCode) := by
  unfold updateMetrics classify
  split_ifs <;> rfl

/-- C1, as the claim states it, fails: it speaks of every job name, and for the
job name `"\xff"`, which is not valid UTF-8, the metrics call inside
`updateMetrics` panics and no counter is incremented. -/
theorem updateMetrics_panics_on_binary_name :
    ValidString binaryName = false
    ∧ updateMetrics (fun _ => 0) binaryName "OK" 0
        = .error (.invalidLabelValue binaryName) :=
  ⟨by decide, rfl⟩

/-- C1, amended: for every job name that is valid UTF-8, every decision label
and every exit code, `updateMetrics` returns without a panic and increments
exactly one counter, by one: the counter keyed by the job name, the class (BAD
when the label is "BAD", else ERROR when the exit code is not zero, else OK)
and the decimal exit code; all other counters keep their value. The four
sample classifications hold and every label other than "BAD" classifies as
"OK" does. -/
theorem updateMetrics_increments_one_counter (m : Metrics) (jobName : GoString)
    (decision : String) (exitCode : Int) (hname : ValidString jobName = true) :
    (∃ m2 : Metrics, updateMetrics m jobName decision exitCode = .ok m2
      ∧ ∀ k : Labels, m2 k
        = m k + (if k = ⟨jobName, (classify decision exitCode).label, sprintD exitCode⟩
                  then 1 else 0))
    ∧ classify decision exitCode
        = (if decision = "BAD" then Outcome.BAD
           else if exitCode ≠ 0 then Outcome.ERROR else Outcome.OK)
    ∧ classify "BAD" 0 = Outcome.BAD ∧ classify "OK" 7 = Outcome.ERROR
    ∧ classify "OK" 0 = Outcome.OK ∧ classify "BAD" 7 = Outcome.BAD
    ∧ classify decision exitCode
        = (if decision = "BAD" then Outcome.BAD else classify "OK" exitCode)
    ∧ sprintD 0 = "0" ∧ sprintD 7 = "7" ∧ sprintD (-1) = "-1" := by
  refine ⟨⟨_, ?_, fun k => bumped_apply m _ k⟩, rfl, by decide, by decide, by decide,
    by decide, ?_, by decide, by decide, by decide⟩
  · rw [updateMetrics_eq_classify, WithLabelValuesInc_valid m jobName _ _ hname]
  · unfold classify
    split_ifs <;> first | rfl | simp_all

/-- The theorem `updateMetrics_increments_one_counter` at the job name "probe":
label "OK" with exit code 7 raises `probe / ERROR / 7` from 0 to 1 and leaves
`probe / OK / 7` at 0. -/
theorem updateMetrics_increments_one_counter_witness :
    ValidString probeName = true
    ∧ ∃ m2 : Metrics, updateMetrics (fun _ => 0) probeName "OK" 7 = .ok m2
        ∧ m2 ⟨probeName, "ERROR", "7"⟩ = 1 ∧ m2 ⟨probeName, "OK", "7"⟩ = 0 := by
  obtain ⟨⟨m2, hm, hk⟩, -⟩ :=
    updateMetrics_increments_one_counter (fun _ => 0) probeName "OK" 7 (by decide)
  refine ⟨by decide, m2, hm, ?_, ?_⟩
  · rw [hk]; decide
  · rw [hk]; decide

/-! ## The decision evaluator -/

/-- C7: with an absent rule `evaluateDecisionLogic` returns the label "OK" and
no error, whatever the data context and whatever the JSON codec and the
expression evaluator would do, and makes no external call: nothing is
marshalled and the expression evaluator is not invoked. In particular the
label is "OK" for the data context of every exit code. -/
theorem evaluateDecisionLogic_nil (env : JsonEnv) (data : Value) (exitCode : Int) :
    evaluateDecisionLogic env Value.nil data = (Except.ok "OK", [])
    ∧ evaluateDecisionLogic env Value.nil (resultData exitCode) = (Except.ok "OK", []) :=
  ⟨rfl, rfl⟩

/-! ## The action executor -/

/-- C8, as the claim states it, fails: a shell killed by signal 9 makes
`cmd.Run` return an `*exec.ExitError` whose `ExitCode()` is `-1`, and
`executeBashScript` returns that `-1` with a nil error. -/
theorem executeBashScript_signal_no_error :
    (executeBashScript (runEnding (.ended (.signaled 9))) "sleep 60").1 = (-1, none) := by
  rfl

/-- C8, amended: a launch that fails with an error other than `*exec.ExitError`
yields exit code `-1` with that error; a process that exits with status `n`
(zero or not) yields `(n, nil)`; a process terminated by a signal yields
`(-1, nil)`, the `ExitCode()` of its `*exec.ExitError`, with no error. -/
theorem executeBashScript_outcomes (script out errOut msg : String) (n sig : Nat) :
    (executeBashScript (fun _ => ⟨cmdRunError (.launchFailed msg), out, errOut⟩) script).1
        = (-1, some (RunError.other msg))
    ∧ (executeBashScript (fun _ => ⟨cmdRunError (.ended (.exited n)), out, errOut⟩) script).1
        = ((n : Int), none)
    ∧ (executeBashScript (fun _ => ⟨cmdRunError (.ended (.signaled sig)), out, errOut⟩) script).1
        = (-1, none) := by
  refine ⟨rfl, ?_, rfl⟩
  cases n <;> rfl

/-! ## One firing -/

/-- C5, as the claim states it, fails: it speaks of every firing, and for a job
named `"\xff"` whose action exits 0 and which has no rule, the executor and the
evaluator both return without error, yet `runJob` panics at the metrics call
and no counter is incremented. -/
theorem runJob_panics_on_binary_name :
    executeBashScript (runEnding (.ended (.exited 0))) (binaryJob .nil).Action.Script
        = ((0, none), [])
    ∧ evaluateDecisionLogic (constEnv .nil) (binaryJob .nil).DecisionLogic (resultData 0)
        = (Except.ok "OK", [])
    ∧ runJob (constEnv .nil) (runEnding (.ended (.exited 0))) (binaryJob .nil) freshWorld
        = .error (.invalidLabelValue binaryName) :=
  ⟨rfl, rfl, rfl⟩

/-- C5, amended: for a job whose name is valid UTF-8, when the executor returns
exit code `e` without error and the decision evaluator returns the label `d`
without error, `runJob` completes and the counters afterwards are those
`updateMetrics` yields for `(job.Name, d, e)`: the counter keyed by the job name,
the class of `(d, e)` and the decimal exit code is one higher, every other
counter is unchanged. Hence with no rule and exit code 0 the counter `OK / 0`
is incremented, with no rule and exit code 2 the counter `ERROR / 2`, and with
a rule yielding "BAD" and exit code 0 the counter `BAD / 0`. -/
theorem runJob_counts_classified_outcome (env : JsonEnv) (run : String → CmdResult)
    (job : Job) (w : World) (e : Int) (out : List LogEvent) (d : String) (cs : List ExtCall)
    (hname : ValidString job.Name = true)
    (hexec : executeBashScript run job.Action.Script = ((e, none), out))
    (heval : evaluateDecisionLogic env job.DecisionLogic (resultData e) = (Except.ok d, cs)) :
    ∃ w2 : World, runJob env run job w = .ok w2
      ∧ updateMetrics w.metrics job.Name d e = .ok w2.metrics
      ∧ (∀ k : Labels, w2.metrics k
          = w.metrics k + (if k = ⟨job.Name, (classify d e).label, sprintD e⟩ then 1 else 0))
      ∧ (job.DecisionLogic = Value.nil → e = 0 →
          ∀ k : Labels, w2.metrics k
            = w.metrics k + (if k = ⟨job.Name, "OK", "0"⟩ then 1 else 0))
      ∧ (job.DecisionLogic = Value.nil → e = 2 →
          ∀ k : Labels, w2.metrics k
            = w.metrics k + (if k = ⟨job.Name, "ERROR", "2"⟩ then 1 else 0))
      ∧ (d = "BAD" → e = 0 →
          ∀ k : Labels, w2.metrics k
            = w.metrics k + (if k = ⟨job.Name, "BAD", "0"⟩ then 1 else 0)) := by
  have hup : updateMetrics w.metrics job.Name d e
      = .ok (fun k => if k = ⟨job.Name, (classify d e).label, sprintD e⟩
          then w.metrics k + 1 else w.metrics k) := by
    rw [updateMetrics_eq_classify, WithLabelValuesInc_valid _ _ _ _ hname]
  have hnil : job.DecisionLogic = Value.nil → d = "OK" := by
    intro hn
    rw [hn] at heval
    have h1 := congrArg Prod.fst heval
    simp only [evaluateDecisionLogic] at h1
    exact (Except.ok.inj h1).symm
  have hrun : ∃ w2 : World, runJob env run job w = .ok w2
      ∧ w2.metrics = (fun k => if k = ⟨job.Name, (classify d e).label, sprintD e⟩
          then w.metrics k + 1 else w.metrics k) := by
    simp only [runJob, hexec, heval, hup]
    exact ⟨_, rfl, rfl⟩
  obtain ⟨w2, hrun, hmet⟩ := hrun
  refine ⟨w2, hrun, by rw [hmet]; exact hup, fun k => ?_, fun hn he k => ?_,
    fun hn he k => ?_, fun hd he k => ?_⟩
  · rw [hmet]
    exact bumped_apply w.metrics _ k
  · have hd := hnil hn
    subst hd he
    rw [hmet]
    exact bumped_apply w.metrics _ k
  · have hd := hnil hn
    subst hd he
    rw [hmet]
    exact bumped_apply w.metrics _ k
  · subst hd he
    rw [hmet]
    exact bumped_apply w.metrics _ k

/-- Scenario A run through `runJob_counts_classified_outcome`: a job named
"probe" without a rule whose action exits 0 raises the counter
`probe / OK / 0` from 0 to 1 and leaves the counter `probe / ERROR / 0` at 0. -/
theorem runJob_counts_classified_outcome_witness :
    ValidString (probeJob "frequency" 30 [] .nil).Name = true
    ∧ executeBashScript (runEnding (.ended (.exited 0)))
        (probeJob "frequency" 30 [] .nil).Action.Script = ((0, none), [])
    ∧ ∃ w2 : World,
        runJob (constEnv .nil) (runEnding (.ended (.exited 0)))
          (probeJob "frequency" 30 [] .nil) freshWorld = .ok w2
        ∧ w2.metrics ⟨probeName, "OK", "0"⟩ = 1
        ∧ w2.metrics ⟨probeName, "ERROR", "0"⟩ = 0 := by
  obtain ⟨w2, hrun, -, hk, -⟩ :=
    runJob_counts_classified_outcome (constEnv .nil) (runEnding (.ended (.exited 0)))
      (probeJob "frequency" 30 [] .nil) freshWorld 0 [] "OK" [] (by decide) rfl rfl
  refine ⟨by decide, rfl, w2, hrun, ?_, ?_⟩
  · rw [hk]; decide
  · rw [hk]; decide

/-- C6, as the claim states it, fails: it speaks of every firing, and for a job
named `"\xff"` both error paths panic at the metrics call instead of
incrementing the ERROR counter: when the shell cannot be launched, and when the
action exits 0 and the evaluator rejects the rule. -/
theorem runJob_error_paths_panic_on_binary_name :
    runJob failingEnv (runEnding (.launchFailed "no bash")) (binaryJob scenarioRule) freshWorld
        = .error (.invalidLabelValue binaryName)
    ∧ runJob failingEnv (runEnding (.ended (.exited 0))) (binaryJob scenarioRule) freshWorld
        = .error (.invalidLabelValue binaryName) :=
  ⟨rfl, rfl⟩

/-- C6, amended: for a job whose name is valid UTF-8: when the executor returns
an error, `runJob` increments exactly the counter keyed by the job name, "ERROR"
and the decimal rendering of the returned exit code (which is `-1`), writes no
evaluation log line and makes no evaluator call: the resulting world does not
depend on the JSON environment. When the executor succeeds with exit code `e`
and the decision evaluator returns an error, exactly the counter keyed by the
job name, "ERROR" and the decimal rendering of `e` is incremented, also for
`e = 0`. -/
theorem runJob_error_paths (env : JsonEnv) (run : String → CmdResult) (job : Job) (w : World)
    (e : Int) (out : List LogEvent) (hname : ValidString job.Name = true) :
    (∀ err : RunError, executeBashScript run job.Action.Script = ((e, some err), out) →
      e = -1
      ∧ ∃ w2 : World, runJob env run job w = .ok w2
        ∧ (∀ k : Labels, w2.metrics k
            = w.metrics k + (if k = ⟨job.Name, "ERROR", sprintD e⟩ then 1 else 0))
        ∧ w2.log
            = w.log ++ [LogEvent.running job.Name] ++ out ++ [LogEvent.execError job.Name err]
        ∧ w2.calls = w.calls
        ∧ ∀ env2 : JsonEnv, runJob env2 run job w = .ok w2)
    ∧ (∀ (err : EvalError) (cs : List ExtCall),
        executeBashScript run job.Action.Script = ((e, none), out) →
        evaluateDecisionLogic env job.DecisionLogic (resultData e) = (Except.error err, cs) →
        ∃ w2 : World, runJob env run job w = .ok w2
          ∧ ∀ k : Labels, w2.metrics k
            = w.metrics k + (if k = ⟨job.Name, "ERROR", sprintD e⟩ then 1 else 0)) := by
  have hinc := WithLabelValuesInc_valid w.metrics job.Name "ERROR" (sprintD e) hname
  constructor
  · intro err hexec
    constructor
    · have h1 := congrArg (fun r => r.1) hexec
      simp only [executeBashScript] at h1
      split at h1
      · split at h1
        · simp at h1
        · exact ((Prod.mk.inj h1).1).symm
      · simp at h1
    · have hrun : ∀ env2 : JsonEnv, runJob env2 run job w
          = .ok { metrics := fun k => if k = ⟨job.Name, "ERROR", sprintD e⟩
                    then w.metrics k + 1 else w.metrics k
                  log := w.log ++ [LogEvent.running job.Name] ++ out
                    ++ [LogEvent.execError job.Name err]
                  calls := w.calls } := by
        intro env2
        simp only [runJob, hexec, hinc]
      exact ⟨_, hrun env, fun k => bumped_apply w.metrics _ k, rfl, rfl, hrun⟩
  · intro err cs hexec heval
    have hrun : ∃ w2 : World, runJob env run job w = .ok w2
        ∧ w2.metrics = (fun k => if k = ⟨job.Name, "ERROR", sprintD e⟩
            then w.metrics k + 1 else w.metrics k) := by
      simp only [runJob, hexec, heval, hinc]
      exact ⟨_, rfl, rfl⟩
    obtain ⟨w2, hrun, hmet⟩ := hrun
    refine ⟨w2, hrun, fun k => ?_⟩
    rw [hmet]
    exact bumped_apply w.metrics _ k

/-- Both error paths of `runJob_error_paths` on concrete firings of the job
"probe": a shell that cannot be launched raises `probe / ERROR / -1` and makes
no JSON call; an action exiting 0 whose rule the evaluator rejects raises
`probe / ERROR / 0`. -/
theorem runJob_error_paths_witness :
    ValidString (probeJob "frequency" 30 [] scenarioRule).Name = true
    ∧ (∃ w2 : World,
        runJob failingEnv (runEnding (.launchFailed "no bash"))
          (probeJob "frequency" 30 [] scenarioRule) freshWorld = .ok w2
        ∧ w2.metrics ⟨probeName, "ERROR", "-1"⟩ = 1 ∧ w2.calls.length = 0)
    ∧ (∃ w2 : World,
        runJob failingEnv (runEnding (.ended (.exited 0)))
          (probeJob "frequency" 30 [] scenarioRule) freshWorld = .ok w2
        ∧ w2.metrics ⟨probeName, "ERROR", "0"⟩ = 1) := by
  obtain ⟨-, w2, hrun, hk, -, hcalls, -⟩ :=
    (runJob_error_paths failingEnv (runEnding (.launchFailed "no bash"))
      (probeJob "frequency" 30 [] scenarioRule) freshWorld (-1) [] (by decide)).1
      (.other "no bash") rfl
  obtain ⟨w3, hrun3, hk3⟩ :=
    (runJob_error_paths failingEnv (runEnding (.ended (.exited 0)))
      (probeJob "frequency" 30 [] scenarioRule) freshWorld 0 [] (by decide)).2
      (.evaluate "bad rule") [.jsonMarshal scenarioRule, .jsonMarshal (resultData 0),
        .jsonlogicApply "" ""] rfl rfl
  refine ⟨by decide, ⟨w2, hrun, ?_, ?_⟩, ⟨w3, hrun3, ?_⟩⟩
  · rw [hk]; decide
  · rw [hcalls]; rfl
  · rw [hk3]; decide

/-! ## Scanning -/

theorem isDecimalDigit_cases (c : Char) (h : isDecimalDigit c = true) :
    c = '0' ∨ c = '1' ∨ c = '2' ∨ c = '3' ∨ c = '4' ∨ c = '5' ∨ c = '6' ∨ c = '7' ∨ c = '8'
      ∨ c = '9' := by
  have hd : "0123456789".data = ['0', '1', '2', '3', '4', '5', '6', '7', '8', '9'] := rfl
  unfold isDecimalDigit at h
  rw [hd] at h
  simpa using h

theorem digit_not_special (c : Char) (h : isDecimalDigit c = true) :
    c ≠ '\r' ∧ c ≠ '\n' ∧ isSpace c = false ∧ c ≠ '+' ∧ c ≠ '-' ∧ c ≠ ':'
      ∧ digitValue c ≤ 9 := by
  rcases isDecimalDigit_cases c h with h | h | h | h | h | h | h | h | h | h <;>
    subst h <;> decide

theorem acceptSign_digit (c : Char) (cs : List Char) (h : isDecimalDigit c = true) :
    acceptSign (c :: cs) = ([], c :: cs) := by
  obtain ⟨-, -, -, h4, h5, -⟩ := digit_not_special c h
  simp [acceptSign, h4, h5]

theorem digits_then_rest (ds rest : List Char) (hall : ∀ x ∈ ds, isDecimalDigit x = true)
    (hrest : rest.takeWhile isDecimalDigit = []) :
    (ds ++ rest).takeWhile isDecimalDigit = ds ∧ (ds ++ rest).dropWhile isDecimalDigit = rest := by
  have hdrop : rest.dropWhile isDecimalDigit = rest := by
    have h := List.takeWhile_append_dropWhile isDecimalDigit rest
    rw [hrest] at h
    simpa using h
  constructor
  · rw [List.takeWhile_append_of_pos hall, hrest, List.append_nil]
  · rw [List.dropWhile_append_of_pos hall, hdrop]

theorem parseMagnitude_digits (ds : List Char) (hne : ds ≠ [])
    (hall : ∀ x ∈ ds, isDecimalDigit x = true) :
    parseMagnitude ds = .ok (decimalValue ds) := by
  unfold parseMagnitude
  have h : ds.all isDecimalDigit = true := List.all_eq_true.mpr hall
  simp [hne, h]


theorem sprintD_natCast (n : Nat) : sprintD (n : Int) = Nat.repr n := by
  unfold sprintD
  simp

theorem strictLoop_ok (f : String → String) (l : List String) :
    ∀ acc : List String,
      (∀ e ∈ l, ∃ hour min : Int, Sscanf e = .ok (hour, min) ∧ strictSpec min hour = f e) →
      strictLoop l acc = .ok (acc ++ l.map f) := by
  induction l with
  | nil => intro acc _; simp [strictLoop]
  | cons e rest ih =>
    intro acc h
    obtain ⟨hour, min, hs, hf⟩ := h e (List.mem_cons_self e rest)
    unfold strictLoop
    simp only [hs]
    rw [ih (acc ++ [strictSpec min hour]) (fun x hx => h x (List.mem_cons_of_mem e hx)), hf]
    simp

theorem scheduleJob_strict_eq (job : Job) (hty : job.Schedule.Typ = "strict")
    (hne : job.Schedule.Data.AtUTC ≠ []) :
    scheduleJob job = strictLoop job.Schedule.Data.AtUTC [] := by
  have hlen : ¬ job.Schedule.Data.AtUTC.length = 0 := by
    intro h
    exact hne (List.length_eq_zero.mp h)
  unfold scheduleJob
  rw [hty]
  simp only [hlen, if_false]
  rfl

theorem validHMM_read (e : String) (h : validHMM e = true) :
    ∃ hour minute : Nat, readHMM e = some (hour, minute) ∧ hour ≤ 23 ∧ minute ≤ 59 := by
  unfold validHMM at h
  split at h
  · rename_i hour minute hr
    simp only [Bool.and_eq_true, decide_eq_true_eq] at h
    exact ⟨hour, minute, hr, h.1, h.2⟩
  · exact absurd h (by simp)

theorem nonspace_not_newline (c : Char) (h : isSpace c = false) : c ≠ '\r' ∧ c ≠ '\n' := by
  constructor
  · intro hc
    subst hc
    exact absurd h (by decide)
  · intro hc
    subst hc
    exact absurd h (by decide)

theorem SkipSpace_nonspace (c : Char) (cs : List Char) (h : isSpace c = false) :
    SkipSpace (c :: cs) = .ok (c :: cs) := by
  obtain ⟨h1, h2⟩ := nonspace_not_newline c h
  simp [SkipSpace, h1, h2, h]

theorem SkipSpace_blank (c : Char) (cs : List Char) (h : isBlank c = true) :
    SkipSpace (c :: cs) = SkipSpace cs := by
  unfold isBlank at h
  simp only [Bool.and_eq_true, Bool.not_eq_true', beq_eq_false_iff_ne, ne_eq] at h
  rw [SkipSpace]
  split_ifs with h1 h2 h3
  · rfl
  · exact absurd h2 h.2
  · rfl
  · exact absurd h.1 h3

theorem SkipSpace_blanks (ws rest : List Char) (hws : ∀ c ∈ ws, isBlank c = true) :
    SkipSpace (ws ++ rest) = SkipSpace rest := by
  induction ws with
  | nil => rfl
  | cons c cs ih =>
    rw [List.cons_append, SkipSpace_blank c _ (hws c (List.mem_cons_self c cs))]
    exact ih (fun x hx => hws x (List.mem_cons_of_mem c hx))

theorem SkipSpace_inv (l : List Char) :
    ∀ r : List Char, SkipSpace l = .ok r →
      ∃ ws : List Char, l = ws ++ r ∧ (∀ c ∈ ws, isBlank c = true)
        ∧ (r = [] ∨ ∃ c cs, r = c :: cs ∧ isSpace c = false) := by
  induction l with
  | nil =>
    intro r h
    simp only [SkipSpace] at h
    have hr := Except.ok.inj h
    subst hr
    exact ⟨[], rfl, fun c hc => absurd hc (List.not_mem_nil c), Or.inl rfl⟩
  | cons c cs ih =>
    intro r h
    rw [SkipSpace] at h
    split_ifs at h with h1 h2 h3
    · obtain ⟨ws, hl, hws, hr⟩ := ih r h
      refine ⟨c :: ws, by rw [hl, List.cons_append], ?_, hr⟩
      intro x hx
      rcases List.mem_cons.mp hx with hxc | hxw
      · rw [hxc, h1.1]
        decide
      · exact hws x hxw
    · obtain ⟨ws, hl, hws, hr⟩ := ih r h
      refine ⟨c :: ws, by rw [hl, List.cons_append], ?_, hr⟩
      intro x hx
      rcases List.mem_cons.mp hx with hxc | hxw
      · rw [hxc]
        unfold isBlank
        simp [h3, h2]
      · exact hws x hxw
    · have hr := Except.ok.inj h
      subst hr
      refine ⟨[], rfl, fun x hx => absurd hx (List.not_mem_nil x), Or.inr ⟨c, cs, rfl, ?_⟩⟩
      simpa using h3

theorem takeWhile_dropWhile_nil (p : Char → Bool) (l : List Char) :
    (l.dropWhile p).takeWhile p = [] := by
  induction l with
  | nil => rfl
  | cons a l ih =>
    by_cases h : p a = true
    · rw [List.dropWhile_cons_of_pos h]
      exact ih
    · rw [List.dropWhile_cons_of_neg h]
      exact List.takeWhile_cons_of_neg h

theorem scanNumber_inv (buf input tok rest : List Char)
    (h : scanNumber buf input = .ok (tok, rest)) :
    ∃ ds : List Char, ds ≠ [] ∧ (∀ c ∈ ds, isDecimalDigit c = true)
      ∧ input = ds ++ rest ∧ tok = buf ++ ds ∧ rest.takeWhile isDecimalDigit = [] := by
  unfold scanNumber at h
  split at h
  · cases h
  · rename_i c cs
    split_ifs at h with hc
    have h2 := Except.ok.inj h
    have ht : buf ++ (c :: cs).takeWhile isDecimalDigit = tok := congrArg Prod.fst h2
    have hr : (c :: cs).dropWhile isDecimalDigit = rest := congrArg Prod.snd h2
    refine ⟨(c :: cs).takeWhile isDecimalDigit, ?_, ?_, ?_, ht.symm, ?_⟩
    · rw [List.takeWhile_cons_of_pos hc]
      exact List.cons_ne_nil _ _
    · intro x hx
      exact List.mem_takeWhile_imp hx
    · rw [← hr, List.takeWhile_append_dropWhile]
    · rw [← hr]
      exact takeWhile_dropWhile_nil _ _

theorem signedValue_plain (sg ds : List Char) (h : sg ≠ ['-']) :
    signedValue sg ds = ((decimalValue ds : Nat) : Int) := by
  unfold signedValue
  rw [if_neg h]

theorem signedValue_minus (ds : List Char) :
    signedValue ['-'] ds = -((decimalValue ds : Nat) : Int) := by
  unfold signedValue
  rw [if_pos rfl]

theorem ParseInt_signed (sg ds : List Char) (hsg : sg = [] ∨ sg = ['+'] ∨ sg = ['-'])
    (hne : ds ≠ []) (hall : ∀ c ∈ ds, isDecimalDigit c = true) :
    ParseInt (sg ++ ds)
      = if -9223372036854775808 ≤ signedValue sg ds ∧ signedValue sg ds < 9223372036854775808
        then .ok (signedValue sg ds) else .error .valueOutOfRange := by
  have hmag := parseMagnitude_digits ds hne hall
  rcases hsg with h | h | h
  · subst h
    rw [signedValue_plain [] ds (by decide), List.nil_append]
    obtain ⟨d, ds2, hd⟩ := List.exists_cons_of_ne_nil hne
    subst hd
    obtain ⟨-, -, -, h4, h5, -⟩ := digit_not_special d (hall d (List.mem_cons_self d ds2))
    unfold ParseInt
    simp only [h5, h4, if_false, hmag]
    by_cases hlt : decimalValue (d :: ds2) ≥ 9223372036854775808
    · rw [if_pos hlt, if_neg (by omega)]
    · rw [if_neg hlt, if_pos (by omega)]
  · subst h
    rw [signedValue_plain ['+'] ds (by decide)]
    unfold ParseInt
    simp only [List.singleton_append, if_true, hmag]
    rw [if_neg (by decide)]
    by_cases hlt : decimalValue ds ≥ 9223372036854775808
    · rw [if_pos hlt, if_neg (by omega)]
    · rw [if_neg hlt, if_pos (by omega)]
  · subst h
    rw [signedValue_minus ds]
    unfold ParseInt
    simp only [List.singleton_append, if_true, hmag]
    by_cases hlt : decimalValue ds > 9223372036854775808
    · rw [if_pos hlt, if_neg (by omega)]
    · rw [if_neg hlt, if_pos (by omega)]

theorem acceptSign_spec (l : List Char) :
    ∃ sg : List Char, (sg = [] ∨ sg = ['+'] ∨ sg = ['-'])
      ∧ (acceptSign l).1 = sg ∧ l = sg ++ (acceptSign l).2 := by
  cases l with
  | nil => exact ⟨[], Or.inl rfl, rfl, rfl⟩
  | cons c cs =>
    simp only [acceptSign]
    split_ifs with h
    · rcases h with h | h
      · subst h
        exact ⟨['+'], Or.inr (Or.inl rfl), rfl, rfl⟩
      · subst h
        exact ⟨['-'], Or.inr (Or.inr rfl), rfl, rfl⟩
    · exact ⟨[], Or.inl rfl, rfl, rfl⟩

theorem acceptSign_shape (sg ds r : List Char) (hsg : sg = [] ∨ sg = ['+'] ∨ sg = ['-'])
    (hne : ds ≠ []) (hall : ∀ c ∈ ds, isDecimalDigit c = true) :
    acceptSign (sg ++ (ds ++ r)) = (sg, ds ++ r) := by
  rcases hsg with h | h | h
  · subst h
    obtain ⟨d, ds2, hd⟩ := List.exists_cons_of_ne_nil hne
    subst hd
    exact acceptSign_digit d (ds2 ++ r) (hall d (List.mem_cons_self d ds2))
  · subst h
    simp [acceptSign]
  · subst h
    simp [acceptSign]

theorem scanNumber_digits (buf ds r : List Char) (hne : ds ≠ [])
    (hall : ∀ c ∈ ds, isDecimalDigit c = true) (hr : r.takeWhile isDecimalDigit = []) :
    scanNumber buf (ds ++ r) = .ok (buf ++ ds, r) := by
  obtain ⟨ht, hd⟩ := digits_then_rest ds r hall hr
  obtain ⟨d, ds2, hds⟩ := List.exists_cons_of_ne_nil hne
  have hd0 : isDecimalDigit d = true := hall d (by rw [hds]; exact List.mem_cons_self d ds2)
  have hcons : ds ++ r = d :: (ds2 ++ r) := by rw [hds, List.cons_append]
  unfold scanNumber
  rw [hcons]
  simp only [hd0, if_true]
  rw [← hcons, ht, hd]

theorem shape_head_nonspace (sg ds r : List Char) (hsg : sg = [] ∨ sg = ['+'] ∨ sg = ['-'])
    (hne : ds ≠ []) (hall : ∀ c ∈ ds, isDecimalDigit c = true) :
    ∃ c cs, sg ++ (ds ++ r) = c :: cs ∧ isSpace c = false := by
  rcases hsg with h | h | h
  · subst h
    obtain ⟨d, ds2, hd⟩ := List.exists_cons_of_ne_nil hne
    subst hd
    exact ⟨d, ds2 ++ r, rfl, (digit_not_special d (hall d (List.mem_cons_self d ds2))).2.2.1⟩
  · subst h
    exact ⟨'+', ds ++ r, rfl, by decide⟩
  · subst h
    exact ⟨'-', ds ++ r, rfl, by decide⟩

theorem scanInt_of_shape (sg ds r : List Char) (v : Int) (hs : IntShape [] sg ds v)
    (hr : r.takeWhile isDecimalDigit = []) :
    scanInt (sg ++ (ds ++ r)) = .ok (v, r) := by
  obtain ⟨-, hsg, hne, hall, hv, hlo, hhi⟩ := hs
  obtain ⟨c, cs, hc, hsp⟩ := shape_head_nonspace sg ds r hsg hne hall
  unfold scanInt
  rw [hc, SkipSpace_nonspace c cs hsp]
  simp only
  rw [← hc, acceptSign_shape sg ds r hsg hne hall]
  simp only [scanNumber_digits sg ds r hne hall hr, ParseInt_signed sg ds hsg hne hall]
  rw [if_pos ⟨by rw [← hv]; exact hlo, by rw [← hv]; exact hhi⟩, hv]

theorem scanVerbD_of_shape (ws sg ds r : List Char) (v : Int) (hs : IntShape ws sg ds v)
    (hr : r.takeWhile isDecimalDigit = []) :
    scanVerbD (ws ++ (sg ++ (ds ++ r))) = .ok (v, r) := by
  obtain ⟨hws, hsg, hne, hall, hv, hlo, hhi⟩ := hs
  obtain ⟨c, cs, hc, hsp⟩ := shape_head_nonspace sg ds r hsg hne hall
  unfold scanVerbD
  rw [SkipSpace_blanks ws _ hws, hc, SkipSpace_nonspace c cs hsp]
  simp only
  rw [← hc]
  exact scanInt_of_shape sg ds r v
    ⟨fun x hx => absurd hx (List.not_mem_nil x), hsg, hne, hall, hv, hlo, hhi⟩ hr

theorem scanInt_shape_inv (l : List Char) (v : Int) (r : List Char)
    (h : scanInt l = .ok (v, r)) :
    ∃ ws sg ds : List Char, l = ws ++ (sg ++ (ds ++ r)) ∧ IntShape ws sg ds v
      ∧ r.takeWhile isDecimalDigit = [] := by
  unfold scanInt at h
  split at h
  · cases h
  · cases h
  · rename_i c cs hskip
    obtain ⟨ws, hl, hws, -⟩ := SkipSpace_inv l (c :: cs) hskip
    split at h
    · cases h
    · rename_i tok rest hnum
      split at h
      · cases h
      · rename_i j hparse
        have h2 := Except.ok.inj h
        have hj : j = v := congrArg Prod.fst h2
        have hrest : rest = r := congrArg Prod.snd h2
        subst hj hrest
        obtain ⟨ds, hne, hall, hinput, htok, htail⟩ := scanNumber_inv _ _ tok rest hnum
        obtain ⟨sg, hsg, hsg1, hsg2⟩ := acceptSign_spec (c :: cs)
        rw [hsg1] at htok
        rw [htok, ParseInt_signed sg ds hsg hne hall] at hparse
        split_ifs at hparse with hrange
        have hj2 : signedValue sg ds = j := Except.ok.inj hparse
        refine ⟨ws, sg, ds, ?_, ⟨hws, hsg, hne, hall, hj2.symm, ?_, ?_⟩, htail⟩
        · rw [hl, hsg2, hinput]
        · rw [← hj2]
          exact hrange.1
        · rw [← hj2]
          exact hrange.2

theorem scanVerbD_shape_inv (l : List Char) (v : Int) (r : List Char)
    (h : scanVerbD l = .ok (v, r)) :
    ∃ ws sg ds : List Char, l = ws ++ (sg ++ (ds ++ r)) ∧ IntShape ws sg ds v
      ∧ r.takeWhile isDecimalDigit = [] := by
  unfold scanVerbD at h
  split at h
  · cases h
  · rename_i l1 hskip
    obtain ⟨wsa, hl, hwsa, -⟩ := SkipSpace_inv l l1 hskip
    obtain ⟨wsb, sg, ds, hl1, ⟨hwsb, hrest⟩, htail⟩ := scanInt_shape_inv l1 v r h
    refine ⟨wsa ++ wsb, sg, ds, ?_, ⟨?_, hrest⟩, htail⟩
    · rw [hl, hl1, List.append_assoc]
    · intro x hx
      rcases List.mem_append.mp hx with hxa | hxb
      · exact hwsa x hxa
      · exact hwsb x hxb

/-- The scan succeeds with `(hour, min)` exactly on the entries of the shape
`ScanShape`, read within the first `hugeWid` runes. -/
theorem Sscanf_iff_shape (s : String) (hour min : Int) :
    Sscanf s = .ok (hour, min) ↔ ScanShape (s.data.take hugeWid) hour min := by
  constructor
  · intro h
    unfold Sscanf at h
    split at h
    · cases h
    · rename_i hr in1 h1
      split at h
      · cases h
      · rename_i in2 hcolon
        split at h
        · cases h
        · rename_i mn rest h2
          have h3 := Except.ok.inj h
          have e1 : hr = hour := congrArg Prod.fst h3
          have e2 : mn = min := congrArg Prod.snd h3
          subst e1 e2
          obtain ⟨ws1, sg1, ds1, hl1, hs1, -⟩ := scanVerbD_shape_inv _ hr in1 h1
          obtain ⟨ws2, sg2, ds2, hl2, hs2, htail⟩ := scanVerbD_shape_inv _ mn rest h2
          have hin1 : in1 = ':' :: in2 := by
            unfold advanceColon at hcolon
            split at hcolon
            · cases hcolon
            · split_ifs at hcolon with hc
              rw [hc, Except.ok.inj hcolon]
          refine ⟨ws1, sg1, ds1, ws2, sg2, ds2, rest, ?_, hs1, hs2, htail⟩
          rw [hl1, hin1, hl2]
  · rintro ⟨ws1, sg1, ds1, ws2, sg2, ds2, tail, hin, hs1, hs2, htail⟩
    unfold Sscanf
    rw [hin, scanVerbD_of_shape ws1 sg1 ds1 _ hour hs1
      (List.takeWhile_cons_of_neg (by decide))]
    simp only [advanceColon, if_true]
    rw [scanVerbD_of_shape ws2 sg2 ds2 tail min hs2 htail]

theorem not_scannable_iff (s : String) : ¬ Scannable s ↔ ∀ v, Sscanf s ≠ .ok v := by
  constructor
  · intro h v hv
    exact h ⟨v.1, v.2, (Sscanf_iff_shape s v.1 v.2).mp hv⟩
  · rintro h ⟨hour, min, hshape⟩
    exact h (hour, min) ((Sscanf_iff_shape s hour min).mpr hshape)

theorem intShape_digits (ds : List Char) (n : Nat) (hne : ds ≠ [])
    (hall : ∀ c ∈ ds, isDecimalDigit c = true) (hval : decimalValue ds = n)
    (hlt : n < 9223372036854775808) :
    IntShape [] [] ds (n : Int) := by
  refine ⟨fun c hc => absurd hc (List.not_mem_nil c), Or.inl rfl, hne, hall, ?_,
    by omega, by omega⟩
  rw [signedValue_plain [] ds (by decide), hval]

/-- What a successful scan implies: both numbers fit in 64 bits and the entry
holds a colon. -/
theorem Sscanf_inv (s : String) (hour min : Int) (h : Sscanf s = .ok (hour, min)) :
    (-9223372036854775808 ≤ hour ∧ hour < 9223372036854775808)
    ∧ (-9223372036854775808 ≤ min ∧ min < 9223372036854775808)
    ∧ ':' ∈ s.data := by
  obtain ⟨ws1, sg1, ds1, ws2, sg2, ds2, tail, hin, hs1, hs2, -⟩ :=
    (Sscanf_iff_shape s hour min).mp h
  refine ⟨hs1.2.2.2.2.2, hs2.2.2.2.2.2, ?_⟩
  have hmem : ':' ∈ s.data.take hugeWid := by
    rw [hin]
    simp
  exact List.mem_of_mem_take hmem

/-- An entry that matches the literal pattern scans to the hour and the
minute its digits denote. -/
theorem Sscanf_of_readHMM (s : String) (hour minute : Nat)
    (hr : readHMM s = some (hour, minute)) :
    Sscanf s = .ok ((hour : Int), (minute : Int)) := by
  refine (Sscanf_iff_shape s _ _).mpr ?_
  unfold readHMM at hr
  split at hr
  · rename_i h c m1 m2 hdata
    split at hr
    · rename_i hcond
      obtain ⟨hh, hc, hm1, hm2⟩ := hcond
      subst hc
      have hv := Option.some.inj hr
      have e1 := (digit_not_special h hh).2.2.2.2.2.2
      have e2 := (digit_not_special m1 hm1).2.2.2.2.2.2
      have e3 := (digit_not_special m2 hm2).2.2.2.2.2.2
      have hA : decimalValue [h] = hour := by
        have := congrArg Prod.fst hv
        simpa [decimalValue] using this
      have hB : decimalValue [m1, m2] = minute := by
        have := congrArg Prod.snd hv
        simp only [decimalValue, List.foldl] at this ⊢
        omega
      have hH : hour ≤ 9 := by
        have := congrArg Prod.fst hv
        simp only at this
        omega
      have hM : minute ≤ 99 := by
        have := congrArg Prod.snd hv
        simp only at this
        omega
      refine ⟨[], [], [h], [], [], [m1, m2], [], ?_,
        intShape_digits [h] hour (List.cons_ne_nil _ _) ?_ hA (by omega),
        intShape_digits [m1, m2] minute (List.cons_ne_nil _ _) ?_ hB (by omega), rfl⟩
      · rw [List.take_of_length_le (by rw [hdata]; simp [hugeWid]), hdata]
        rfl
      · intro x hx
        simp only [List.mem_singleton] at hx
        rw [hx]
        exact hh
      · intro x hx
        simp only [List.mem_cons, List.mem_singleton, List.not_mem_nil, or_false] at hx
        rcases hx with hx | hx <;> rw [hx] <;> assumption
    · exact absurd hr (by simp)
  · rename_i h1 h2 c m1 m2 hdata
    split at hr
    · rename_i hcond
      obtain ⟨hh1, hh2, hc, hm1, hm2⟩ := hcond
      subst hc
      have hv := Option.some.inj hr
      have e0 := (digit_not_special h1 hh1).2.2.2.2.2.2
      have e1 := (digit_not_special h2 hh2).2.2.2.2.2.2
      have e2 := (digit_not_special m1 hm1).2.2.2.2.2.2
      have e3 := (digit_not_special m2 hm2).2.2.2.2.2.2
      have hA : decimalValue [h1, h2] = hour := by
        have := congrArg Prod.fst hv
        simp only [decimalValue, List.foldl] at this ⊢
        omega
      have hB : decimalValue [m1, m2] = minute := by
        have := congrArg Prod.snd hv
        simp only [decimalValue, List.foldl] at this ⊢
        omega
      have hH : hour ≤ 99 := by
        have := congrArg Prod.fst hv
        simp only at this
        omega
      have hM : minute ≤ 99 := by
        have := congrArg Prod.snd hv
        simp only at this
        omega
      refine ⟨[], [], [h1, h2], [], [], [m1, m2], [], ?_,
        intShape_digits [h1, h2] hour (List.cons_ne_nil _ _) ?_ hA (by omega),
        intShape_digits [m1, m2] minute (List.cons_ne_nil _ _) ?_ hB (by omega), rfl⟩
      · rw [List.take_of_length_le (by rw [hdata]; simp [hugeWid]), hdata]
        rfl
      · intro x hx
        simp only [List.mem_cons, List.mem_singleton, List.not_mem_nil, or_false] at hx
        rcases hx with hx | hx <;> rw [hx] <;> assumption
      · intro x hx
        simp only [List.mem_cons, List.mem_singleton, List.not_mem_nil, or_false] at hx
        rcases hx with hx | hx <;> rw [hx] <;> assumption
    · exact absurd hr (by simp)
  · exact absurd hr (by simp)

theorem strictLoop_inv (l : List String) :
    ∀ acc res : List String, strictLoop l acc = .ok res →
      ∃ specs : List String, res = acc ++ specs ∧
        List.Forall₂ (fun e spec => ∃ hour min : Int,
          Sscanf e = .ok (hour, min) ∧ spec = strictSpec min hour) l specs := by
  induction l with
  | nil =>
    intro acc res h
    simp only [strictLoop] at h
    exact ⟨[], by rw [← Except.ok.inj h, List.append_nil], List.Forall₂.nil⟩
  | cons e rest ih =>
    intro acc res h
    unfold strictLoop at h
    split at h
    · cases h
    · rename_i hour min hs
      obtain ⟨specs, hres, hall⟩ := ih _ res h
      refine ⟨strictSpec min hour :: specs, ?_, List.Forall₂.cons ⟨hour, min, hs, rfl⟩ hall⟩
      rw [hres, List.append_assoc, List.singleton_append]

theorem strictLoop_first_failure (pre : List String) (bad : String) (post : List String)
    (cause : ScanError) (hbad : Sscanf bad = .error cause) :
    ∀ acc : List String, (∀ x ∈ pre, ∃ v, Sscanf x = .ok v) →
      strictLoop (pre ++ bad :: post) acc = .error (.invalidTimeFormat bad cause) := by
  induction pre with
  | nil =>
    intro acc _
    simp only [List.nil_append, strictLoop, hbad]
  | cons e rest ih =>
    intro acc hpre
    obtain ⟨v, hv⟩ := hpre e (List.mem_cons_self e rest)
    rw [List.cons_append]
    unfold strictLoop
    simp only [hv]
    exact ih _ (fun x hx => hpre x (List.mem_cons_of_mem e hx))

theorem first_failure_exists (l : List String) (e : String) (he : e ∈ l)
    (hbad : ∀ v, Sscanf e ≠ .ok v) :
    ∃ (pre : List String) (bad : String) (post : List String) (cause : ScanError),
      l = pre ++ bad :: post ∧ (∀ x ∈ pre, ∃ v, Sscanf x = .ok v)
      ∧ Sscanf bad = .error cause := by
  induction l with
  | nil => exact absurd he (List.not_mem_nil e)
  | cons x rest ih =>
    cases hx : Sscanf x with
    | error cause => exact ⟨[], x, rest, cause, rfl, fun y hy => absurd hy (List.not_mem_nil y), hx⟩
    | ok v =>
      have he2 : e ∈ rest := by
        rcases List.mem_cons.mp he with h | h
        · subst h
          exact absurd hx (hbad v)
        · exact h
      obtain ⟨pre, bad, post, cause, hl, hpre, hb⟩ := ih he2
      refine ⟨x :: pre, bad, post, cause, by rw [hl, List.cons_append], ?_, hb⟩
      intro y hy
      rcases List.mem_cons.mp hy with h | h
      · subst h
        exact ⟨v, hx⟩
      · exact hpre y h

theorem validHMM_spec (e : String) (h : validHMM e = true) :
    ∃ hour minute : Nat, readHMM e = some (hour, minute) ∧ hour ≤ 23 ∧ minute ≤ 59
      ∧ expectedSpec e = Nat.repr minute ++ " " ++ Nat.repr hour ++ " * * *" := by
  obtain ⟨hour, minute, hr, h1, h2⟩ := validHMM_read e h
  refine ⟨hour, minute, hr, h1, h2, ?_⟩
  unfold expectedSpec
  rw [hr]

theorem scheduleJob_strict_map (job : Job) (hty : job.Schedule.Typ = "strict")
    (hne : job.Schedule.Data.AtUTC ≠ [])
    (hvalid : ∀ e ∈ job.Schedule.Data.AtUTC, validHMM e = true) :
    scheduleJob job = .ok (job.Schedule.Data.AtUTC.map expectedSpec) := by
  rw [scheduleJob_strict_eq job hty hne, strictLoop_ok expectedSpec, List.nil_append]
  intro e he
  obtain ⟨hour, minute, hr, -, -, hspec⟩ := validHMM_spec e (hvalid e he)
  refine ⟨(hour : Int), (minute : Int), Sscanf_of_readHMM e hour minute hr, ?_⟩
  rw [hspec]
  unfold strictSpec
  rw [sprintD_natCast, sprintD_natCast]

set_option maxRecDepth 100000 in
theorem five_fields_rejected :
    ∀ hour : Fin 24, ∀ minute : Fin 60,
      engineAccepts (Nat.repr minute.val ++ " " ++ Nat.repr hour.val ++ " * * *")
        = some false := by
  decide

theorem digitChar_spec (r : Nat) (h : r < 10) :
    isDecimalDigit (Nat.digitChar r) = true ∧ digitValue (Nat.digitChar r) = r := by
  interval_cases r <;> exact ⟨by decide, by decide⟩

theorem decimalValue_snoc (pre : List Char) (d : Char) :
    decimalValue (pre ++ [d]) = decimalValue pre * 10 + digitValue d := by
  unfold decimalValue
  rw [List.foldl_append]
  rfl

theorem toDigitsCore_spec (fuel : Nat) :
    ∀ (n : Nat) (ds : List Char), n < fuel →
      ∃ pre : List Char, Nat.toDigitsCore 10 fuel n ds = pre ++ ds ∧ pre ≠ []
        ∧ (∀ c ∈ pre, isDecimalDigit c = true) ∧ decimalValue pre = n := by
  induction fuel with
  | zero => intro n ds h; exact absurd h (Nat.not_lt_zero n)
  | succ fuel ih =>
    intro n ds h
    obtain ⟨hd1, hd2⟩ := digitChar_spec (n % 10) (Nat.mod_lt n (by decide))
    by_cases h0 : n / 10 = 0
    · refine ⟨[Nat.digitChar (n % 10)], ?_, List.cons_ne_nil _ _, ?_, ?_⟩
      · simp only [Nat.toDigitsCore, h0, if_true]
        rfl
      · intro c hc
        rw [List.mem_singleton.mp hc]
        exact hd1
      · have hv : decimalValue [Nat.digitChar (n % 10)] = digitValue (Nat.digitChar (n % 10)) := by
          simp [decimalValue]
        rw [hv, hd2]
        omega
    · have hlt : n / 10 < fuel := by omega
      obtain ⟨pre, hpre, -, hall, hval⟩ := ih (n / 10) (Nat.digitChar (n % 10) :: ds) hlt
      refine ⟨pre ++ [Nat.digitChar (n % 10)], ?_, ?_, ?_, ?_⟩
      · simp only [Nat.toDigitsCore, h0, if_false]
        rw [hpre, List.append_assoc]
        rfl
      · simp
      · intro c hc
        rcases List.mem_append.mp hc with hc | hc
        · exact hall c hc
        · rw [List.mem_singleton.mp hc]
          exact hd1
      · rw [decimalValue_snoc, hval, hd2]
        omega

/-- The decimal rendering of a natural number is a non-empty run of decimal
digits that denotes the number. -/
theorem repr_digits (n : Nat) :
    (Nat.repr n).data ≠ [] ∧ (∀ c ∈ (Nat.repr n).data, isDecimalDigit c = true)
      ∧ decimalValue (Nat.repr n).data = n := by
  obtain ⟨pre, hpre, hne, hall, hval⟩ := toDigitsCore_spec (n + 1) n [] (Nat.lt_succ_self n)
  have hdata : (Nat.repr n).data = pre := by
    show Nat.toDigitsCore 10 (n + 1) n [] = pre
    rw [hpre, List.append_nil]
  rw [hdata]
  exact ⟨hne, hall, hval⟩

theorem every_seconds_verdict (n : Nat) :
    engineAccepts ("@every " ++ Nat.repr n ++ "s") = some (decide (n ≤ 9223372036)) := by
  obtain ⟨hne, hall, hval⟩ := repr_digits n
  obtain ⟨ht, hd⟩ := digits_then_rest (Nat.repr n).data ['s'] hall (by decide)
  have hdata : ("@every " ++ Nat.repr n ++ "s").data
      = '@' :: 'e' :: 'v' :: 'e' :: 'r' :: 'y' :: ' ' :: ((Nat.repr n).data ++ ['s']) := by
    simp only [String.data_append]
    rfl
  unfold engineAccepts
  rw [hdata]
  have hpre : "@every ".data = ['@', 'e', 'v', 'e', 'r', 'y', ' '] := rfl
  have htz : "TZ=".data = ['T', 'Z', '='] := rfl
  have hctz : "CRON_TZ=".data = ['C', 'R', 'O', 'N', '_', 'T', 'Z', '='] := rfl
  simp only [hpre, htz, hctz, List.isPrefixOf, List.drop, everySeconds, ht, hd]
  simp [hne, hval]

/-! ## The schedule translator -/

/-- C4: for a job of schedule type "frequency" with a positive interval,
`scheduleJob` succeeds with exactly one TriggerSpec, "@every <n>s" with `n` the
decimal rendering of the interval, whatever `atUTC` and `daysOfWeek` hold; with
an interval of zero or less it returns an error and no TriggerSpec. -/
theorem scheduleJob_frequency (job : Job) (hty : job.Schedule.Typ = "frequency") :
    (0 < job.Schedule.Data.IntervalInSeconds →
      scheduleJob job
        = .ok ["@every " ++ Nat.repr job.Schedule.Data.IntervalInSeconds.toNat ++ "s"])
    ∧ (job.Schedule.Data.IntervalInSeconds ≤ 0 →
      scheduleJob job = .error (.invalidInterval job.Schedule.Data.IntervalInSeconds)) := by
  constructor
  · intro hpos
    have h1 : ¬ job.Schedule.Data.IntervalInSeconds ≤ 0 := by omega
    have h2 : sprintD job.Schedule.Data.IntervalInSeconds
        = Nat.repr job.Schedule.Data.IntervalInSeconds.toNat := by
      obtain ⟨k, hk⟩ := Int.eq_ofNat_of_zero_le (le_of_lt hpos)
      rw [hk, sprintD_natCast]
      simp
    unfold scheduleJob
    simp only [hty, h1, if_true, if_false, h2]
  · intro hle
    unfold scheduleJob
    simp only [hty, hle, if_true]

/-- The theorem `scheduleJob_frequency` on two concrete jobs: an interval of 30
with a stray `atUTC` entry gives "@every 30s"; an interval of -3 is rejected. -/
theorem scheduleJob_frequency_witness :
    scheduleJob (probeJob "frequency" 30 ["junk"] .nil) = .ok ["@every 30s"]
    ∧ scheduleJob (probeJob "frequency" (-3) [] .nil) = .error (.invalidInterval (-3)) :=
  ⟨(scheduleJob_frequency (probeJob "frequency" 30 ["junk"] .nil) rfl).1 (by decide),
   (scheduleJob_frequency (probeJob "frequency" (-3) [] .nil) rfl).2 (by decide)⟩

/-- C2: for a job of schedule type "strict" whose `atUTC` list is non-empty and
holds only valid `H:MM` / `HH:MM` entries (hour at most 23, minute at most 59),
`scheduleJob` succeeds and returns one TriggerSpec per entry, in input order:
the i-th is "<minute> <hour> * * *" with the minute and the hour of the i-th
entry in decimal. The entry "9:05" yields "5 9 * * *". -/
theorem scheduleJob_strict_valid (job : Job) (hty : job.Schedule.Typ = "strict")
    (hne : job.Schedule.Data.AtUTC ≠ [])
    (hvalid : ∀ e ∈ job.Schedule.Data.AtUTC, validHMM e = true) :
    scheduleJob job = .ok (job.Schedule.Data.AtUTC.map expectedSpec)
    ∧ (job.Schedule.Data.AtUTC.map expectedSpec).length = job.Schedule.Data.AtUTC.length
    ∧ (∀ e ∈ job.Schedule.Data.AtUTC, ∃ hour minute : Nat,
        readHMM e = some (hour, minute) ∧ hour ≤ 23 ∧ minute ≤ 59
        ∧ expectedSpec e = Nat.repr minute ++ " " ++ Nat.repr hour ++ " * * *")
    ∧ expectedSpec "9:05" = "5 9 * * *" := by
  exact ⟨scheduleJob_strict_map job hty hne hvalid, List.length_map _ _,
    fun e he => validHMM_spec e (hvalid e he), by decide⟩

/-- The theorem `scheduleJob_strict_valid` on a concrete job with three valid
entries, one of them with a two-digit hour and one with a leading zero. -/
theorem scheduleJob_strict_valid_witness :
    scheduleJob (probeJob "strict" 0 ["9:05", "23:59", "07:30"] .nil)
      = .ok ["5 9 * * *", "59 23 * * *", "30 7 * * *"] :=
  (scheduleJob_strict_valid (probeJob "strict" 0 ["9:05", "23:59", "07:30"] .nil) rfl
    (by decide) (by decide)).1

/-- C3, as the claim states it, fails: the entries "9:5" (a one-digit minute)
and "9:05pm" (text after the minute) do not match the literal pattern, yet
`scheduleJob` accepts each of them and returns a TriggerSpec. -/
theorem scheduleJob_accepts_off_pattern :
    matchesHMM "9:5" = false
    ∧ scheduleJob (probeJob "strict" 0 ["9:5"] .nil) = .ok ["5 9 * * *"]
    ∧ matchesHMM "9:05pm" = false
    ∧ scheduleJob (probeJob "strict" 0 ["9:05pm"] .nil) = .ok ["5 9 * * *"] :=
  ⟨by decide, rfl, by decide, rfl⟩

/-- C3, amended: for a job of schedule type "strict", if any entry of `atUTC`
does not have the shape the scan `fmt.Sscanf(entry, "%d:%d", ...)` accepts
(blanks, an optional sign, decimal digits, a colon right after them, blanks, an
optional sign, decimal digits, then any text; both numbers within 64 bits),
then `scheduleJob` returns an error and no TriggerSpec, whatever the other
entries are; the error names the first such entry, after the text
"invalid time format ". Every entry without a colon is of that kind, and every
entry that matches the literal pattern `H:MM` / `HH:MM` is not. -/
theorem scheduleJob_strict_rejects (job : Job) (hty : job.Schedule.Typ = "strict")
    (e : String) (he : e ∈ job.Schedule.Data.AtUTC) (hbad : ¬ Scannable e) :
    (∃ (pre : List String) (bad : String) (post : List String) (cause : ScanError),
      job.Schedule.Data.AtUTC = pre ++ bad :: post
      ∧ (∀ x ∈ pre, Scannable x)
      ∧ ¬ Scannable bad
      ∧ scheduleJob job = .error (.invalidTimeFormat bad cause)
      ∧ ∀ causeText : ScanError → String,
          (ScheduleError.invalidTimeFormat bad cause).Error causeText
            = "invalid time format " ++ bad ++ ": " ++ causeText cause)
    ∧ (∀ x : String, ':' ∉ x.data → ¬ Scannable x)
    ∧ (∀ x : String, matchesHMM x = true → Scannable x) := by
  refine ⟨?_, ?_, ?_⟩
  · obtain ⟨pre, bad, post, cause, hl, hpre, hb⟩ :=
      first_failure_exists job.Schedule.Data.AtUTC e he ((not_scannable_iff e).mp hbad)
    refine ⟨pre, bad, post, cause, hl, ?_, ?_, ?_, fun _ => rfl⟩
    · intro x hx
      obtain ⟨v, hv⟩ := hpre x hx
      exact ⟨v.1, v.2, (Sscanf_iff_shape x v.1 v.2).mp hv⟩
    · refine (not_scannable_iff bad).mpr ?_
      intro v hv
      rw [hb] at hv
      cases hv
    · rw [scheduleJob_strict_eq job hty (List.ne_nil_of_mem he), hl]
      exact strictLoop_first_failure pre bad post cause hb [] hpre
  · intro x hx hsc
    obtain ⟨hour, min, hshape⟩ := hsc
    exact hx (Sscanf_inv x hour min ((Sscanf_iff_shape x hour min).mpr hshape)).2.2
  · intro x hx
    unfold matchesHMM at hx
    obtain ⟨v, hv⟩ := Option.isSome_iff_exists.mp hx
    exact ⟨(v.1 : Int), (v.2 : Int),
      (Sscanf_iff_shape x _ _).mp (Sscanf_of_readHMM x v.1 v.2 hv)⟩

/-- The theorem `scheduleJob_strict_rejects` on a concrete job whose second
entry lacks the colon: the translation fails although the first and the third
entry are valid. -/
theorem scheduleJob_strict_rejects_witness :
    ¬ Scannable "905"
    ∧ (∃ (bad : String) (cause : ScanError),
        ¬ Scannable bad
        ∧ scheduleJob (probeJob "strict" 0 ["9:05", "905", "7:00"] .nil)
          = .error (.invalidTimeFormat bad cause))
    ∧ scheduleJob (probeJob "strict" 0 ["9:05", "905", "7:00"] .nil)
        = .error (.invalidTimeFormat "905" .outOfInput) := by
  have hbad : ¬ Scannable "905" := by
    refine (not_scannable_iff "905").mpr ?_
    intro v hv
    have h : Sscanf "905" = .error .outOfInput := rfl
    rw [h] at hv
    cases hv
  obtain ⟨⟨_, bad, _, cause, _, _, hnot, hres, _⟩, _⟩ :=
    scheduleJob_strict_rejects (probeJob "strict" 0 ["9:05", "905", "7:00"] .nil) rfl "905"
      (by decide) hbad
  exact ⟨hbad, ⟨bad, cause, hnot, hres⟩, rfl⟩

/-- C9, as the claim states it, fails: the entries "25:99" and "-1:30" do not
make `scheduleJob` fail; it returns TriggerSpecs with hour 25 and minute 99, and
with hour -1. -/
theorem scheduleJob_accepts_out_of_range :
    scheduleJob (probeJob "strict" 0 ["25:99"] .nil) = .ok ["99 25 * * *"]
    ∧ scheduleJob (probeJob "strict" 0 ["-1:30"] .nil) = .ok ["30 -1 * * *"] :=
  ⟨rfl, rfl⟩

/-- C9, amended: for a job of schedule type "strict", whenever `scheduleJob`
succeeds, the returned TriggerSpecs correspond one to one, in order, to the
entries of `atUTC`; each is "<minute> <hour> * * *" where hour and minute are the
signed 64-bit integers the scan reads from the entry. They lie in [0,23] and
[0,59] when the entry is a valid `H:MM` / `HH:MM` time of day; no range is
checked otherwise. -/
theorem scheduleJob_strict_specs (job : Job) (hty : job.Schedule.Typ = "strict")
    (specs : List String) (hok : scheduleJob job = .ok specs) :
    List.Forall₂ (fun e spec => ∃ hour min : Int,
        ScanShape (e.data.take hugeWid) hour min
        ∧ spec = sprintD min ++ " " ++ sprintD hour ++ " * * *"
        ∧ (-9223372036854775808 ≤ hour ∧ hour < 9223372036854775808)
        ∧ (-9223372036854775808 ≤ min ∧ min < 9223372036854775808)
        ∧ (validHMM e = true → (0 ≤ hour ∧ hour ≤ 23) ∧ (0 ≤ min ∧ min ≤ 59)))
      job.Schedule.Data.AtUTC specs := by
  have hne : job.Schedule.Data.AtUTC ≠ [] := by
    intro hnil
    unfold scheduleJob at hok
    rw [hty, hnil] at hok
    simp at hok
  rw [scheduleJob_strict_eq job hty hne] at hok
  obtain ⟨specs2, hres, hall⟩ := strictLoop_inv _ [] specs hok
  rw [List.nil_append] at hres
  subst hres
  refine List.Forall₂.imp ?_ hall
  intro e spec ⟨hour, min, hs, hspec⟩
  obtain ⟨hr1, hr2, -⟩ := Sscanf_inv e hour min hs
  refine ⟨hour, min, (Sscanf_iff_shape e hour min).mp hs, hspec, hr1, hr2, fun hv => ?_⟩
  obtain ⟨h, m, hread, hh, hm⟩ := validHMM_read e hv
  have hs2 := Sscanf_of_readHMM e h m hread
  rw [hs] at hs2
  have h3 := Except.ok.inj hs2
  have e1 : hour = (h : Int) := congrArg Prod.fst h3
  have e2 : min = (m : Int) := congrArg Prod.snd h3
  omega

/-- The theorem `scheduleJob_strict_specs` on a concrete job with one entry in
range and one out of range. -/
theorem scheduleJob_strict_specs_witness :
    List.Forall₂ (fun e spec => ∃ hour min : Int,
        ScanShape (e.data.take hugeWid) hour min
        ∧ spec = sprintD min ++ " " ++ sprintD hour ++ " * * *"
        ∧ (-9223372036854775808 ≤ hour ∧ hour < 9223372036854775808)
        ∧ (-9223372036854775808 ≤ min ∧ min < 9223372036854775808)
        ∧ (validHMM e = true → (0 ≤ hour ∧ hour ≤ 23) ∧ (0 ≤ min ∧ min ≤ 59)))
      ["9:05", "25:99"] ["5 9 * * *", "99 25 * * *"] :=
  scheduleJob_strict_specs (probeJob "strict" 0 ["9:05", "25:99"] .nil) rfl
    ["5 9 * * *", "99 25 * * *"] rfl

/-! ## Registration with the trigger engine -/

/-- C10: the claim fails on the strict half. For a job of schedule type
"strict" whose `atUTC` list is non-empty and holds only valid `H:MM` / `HH:MM`
entries, `scheduleJob` succeeds, and every TriggerSpec it returns is refused
by the trigger engine as `main` configures it: the spec has five fields where
six are required, so no strict trigger is ever registered. On the frequency
half, the TriggerSpec of a frequency schedule with a positive interval is the
descriptor `@every <n>s`, which the engine accepts exactly when the interval is
at most 9223372036 seconds. -/
theorem strict_specs_rejected_by_engine (job : Job) :
    (job.Schedule.Typ = "strict" → job.Schedule.Data.AtUTC ≠ [] →
      (∀ e ∈ job.Schedule.Data.AtUTC, validHMM e = true) →
      ∃ specs : List String, scheduleJob job = .ok specs
        ∧ specs.length = job.Schedule.Data.AtUTC.length
        ∧ ∀ spec ∈ specs, engineAccepts spec = some false)
    ∧ (job.Schedule.Typ = "frequency" → 0 < job.Schedule.Data.IntervalInSeconds →
      ∃ spec : String, scheduleJob job = .ok [spec]
        ∧ engineAccepts spec
            = some (decide (job.Schedule.Data.IntervalInSeconds ≤ 9223372036))) := by
  constructor
  · intro hty hne hvalid
    refine ⟨_, scheduleJob_strict_map job hty hne hvalid, List.length_map _ _, ?_⟩
    intro spec hspec
    obtain ⟨e, he, hes⟩ := List.mem_map.mp hspec
    obtain ⟨hour, minute, -, hh, hm, hexp⟩ := validHMM_spec e (hvalid e he)
    rw [← hes, hexp]
    exact five_fields_rejected ⟨hour, by omega⟩ ⟨minute, by omega⟩
  · intro hty hpos
    have h1 : ¬ job.Schedule.Data.IntervalInSeconds ≤ 0 := by omega
    obtain ⟨k, hk⟩ := Int.eq_ofNat_of_zero_le (le_of_lt hpos)
    refine ⟨"@every " ++ Nat.repr k ++ "s", ?_, ?_⟩
    · unfold scheduleJob
      simp only [hty, h1, if_true, if_false]
      rw [hk, sprintD_natCast]
    · rw [every_seconds_verdict k, hk]
      congr 1
      rw [decide_eq_decide]
      omega

/-- The theorem `strict_specs_rejected_by_engine` at the entry "9:05": the
TriggerSpec is "5 9 * * *", it has five fields, and the engine refuses it. At
the intervals 30 and 10000000000 the frequency descriptor is accepted and
refused. -/
theorem strict_specs_rejected_by_engine_witness :
    scheduleJob (probeJob "strict" 0 ["9:05"] .nil) = .ok ["5 9 * * *"]
    ∧ (fieldsFrom "5 9 * * *".data []).length = 5
    ∧ engineAccepts "5 9 * * *" = some false
    ∧ engineAccepts "@every 30s" = some true
    ∧ engineAccepts "@every 10000000000s" = some false := by
  obtain ⟨specs, hs, -, hrej⟩ :=
    (strict_specs_rejected_by_engine (probeJob "strict" 0 ["9:05"] .nil)).1 rfl
      (by decide) (by decide)
  have h1 : scheduleJob (probeJob "strict" 0 ["9:05"] .nil) = .ok ["5 9 * * *"] := rfl
  rw [h1] at hs
  have h2 : specs = ["5 9 * * *"] := (Except.ok.inj hs).symm
  subst h2
  exact ⟨h1, by decide, hrej "5 9 * * *" (List.mem_singleton.mpr rfl), by decide, by decide⟩

end Trinetra
